import Mathlib

/-!
Shallow embedding of the RoseHipLang preprocessor, translated from
`src/rhl_parser/src/lib.rs` (module `preprocessing`) and
`src/rhl_parser/src/stdlib.rs` of the `rhl_rs` repository.

Modelling conventions:
* Rust's `Vec<&str>` of source lines is a `List String`; the cursor
  `index : usize` is a `Nat` (its only increments keep it at most one past
  the line count, far below `usize::MAX`, so plain `Nat` is faithful).
* The nesting counter `height : u16` is a `Nat` together with explicit
  `% 65536` wrap-around on `+= 1` and `-= 1`, matching two's-complement
  wrapping of release builds; a debug build instead panics at the same
  subtraction when `height = 0`, which is noted where it matters.
* `Result<T, std::io::Error>` becomes an `Outcome` with `ok`, `err`
  (carrying the error kind and message) and `panicked` (for `unwrap()` on
  `None`).  The two source loops (`run`'s `while` and the scan loop of
  `read_until_endif_or_else`) can fail to terminate, so both functions take
  an explicit fuel argument and return `none` exactly when the source code
  would still be looping after that many iterations; genuine divergence of
  the source shows up as `= none` for every fuel.
* `HashMap<String, Definition>` is an association list; `insert`
  overwrites the binding of an existing key in place, otherwise appends.
  The map's unspecified iteration order becomes the list order.
* The process-wide `BUILTIN_LIBS` registry and the filesystem are passed
  in explicitly: `libs` is the association list of builtin libraries
  (`stdlib.rs` fills it with one entry for "$std" whose text comes from an
  embedded file) and `fsys` maps a path to the file's contents, `none`
  meaning `fs::read_to_string` fails with an I/O error.
* Error message strings follow the `format!` strings of the source, with
  the single-quote decorations around interpolated fragments omitted.
-/

namespace Rhl

/-- Rust `char::is_whitespace`: the Unicode `White_Space` property
(U+0009..U+000D, space, NEL, NBSP, and the other Unicode space
separators). -/
def rustIsWhitespace (c : Char) : Bool :=
  decide (c.toNat ∈ ([0x09, 0x0A, 0x0B, 0x0C, 0x0D, 0x20, 0x85, 0xA0, 0x1680,
      0x2028, 0x2029, 0x202F, 0x205F, 0x3000] : List Nat)
    ∨ (0x2000 ≤ c.toNat ∧ c.toNat ≤ 0x200A))

/-- Accumulator version of `str::split_whitespace`: `acc` is the current
(not yet finished) word. -/
def splitWsAux : List Char → List Char → List String
  | acc, [] => if acc.isEmpty then [] else [String.mk acc]
  | acc, c :: rest =>
    if rustIsWhitespace c then
      (if acc.isEmpty then [] else [String.mk acc]) ++ splitWsAux [] rest
    else
      splitWsAux (acc ++ [c]) rest

/-- Rust `str::split_whitespace`, collected into a list: maximal runs of
non-whitespace characters, in order; no empty words. -/
def splitWhitespace (s : String) : List String :=
  splitWsAux [] s.data

/-- Accumulator version of `str::split_once(" ")`. -/
def splitOnceAux : List Char → List Char → Option (String × String)
  | _, [] => none
  | acc, c :: rest =>
    if c = ' ' then some (String.mk acc, String.mk rest)
    else splitOnceAux (acc ++ [c]) rest

/-- Rust `str::split_once(" ")`: split at the first literal space
character, `none` when the string has no space. -/
def splitOnceSpace (s : String) : Option (String × String) :=
  splitOnceAux [] s.data

/-- Rust `str::starts_with(pre)`. -/
def rustStartsWith (s pre : String) : Bool :=
  pre.data.isPrefixOf s.data

/-- Core of `str::replace` for a non-empty pattern `p :: ps`: scan left to
right, replacing each leftmost non-overlapping occurrence of the pattern
by `rep`. -/
def replaceCore (p : Char) (ps rep : List Char) : List Char → List Char
  | [] => []
  | c :: rest =>
    if (p :: ps).isPrefixOf (c :: rest) then
      rep ++ replaceCore p ps rep (rest.drop ps.length)
    else
      c :: replaceCore p ps rep rest
termination_by s => s.length
decreasing_by
  · simp only [List.length_drop, List.length_cons]
    omega
  · simp only [List.length_cons]
    omega

/-- Rust `str::replace(pat, to)`: replace every (leftmost, non-overlapping)
occurrence of `pat` in `s` by `rep`; an empty pattern matches at every char
boundary, inserting `rep` there. -/
def rustReplace (s pat rep : String) : String :=
  match pat.data with
  | [] => String.mk (rep.data ++ (s.data.map (fun c => c :: rep.data)).flatten)
  | p :: ps => String.mk (replaceCore p ps rep.data s.data)

/-- Drop one trailing carriage return, used by `str::lines` on a segment
that was terminated by a line feed. -/
def stripTrailingCr (l : List Char) : List Char :=
  match l.getLast? with
  | some c => if c = '\r' then l.dropLast else l
  | none => l

/-- Accumulator version of `str::lines`: `acc` is the current line read so
far.  A final segment without a line feed is yielded as-is (including a
trailing carriage return, as in Rust). -/
def linesAux : List Char → List Char → List String
  | acc, [] => if acc.isEmpty then [] else [String.mk acc]
  | acc, c :: rest =>
    if c = '\n' then String.mk (stripTrailingCr acc) :: linesAux [] rest
    else linesAux (acc ++ [c]) rest

/-- Rust `str::lines`, collected into a list: split at `\n` or `\r\n`,
final line ending optional. -/
def rustLines (s : String) : List String :=
  linesAux [] s.data

/-- Concatenation of a list of lines with no separator: this is exactly
how `run` accumulates its output (`self.out.push_str(&line)` appends the
line with no line terminator). -/
def concatLines : List String → String
  | [] => ""
  | l :: ls => l ++ concatLines ls

/-- `type Definition = Option<String>` of the source: `none` is
defined-but-valueless, `some v` is defined-with-value. -/
abbrev Definition := Option String

/-- `HashMap::contains_key` on the association-list model. -/
def containsKey (defs : List (String × Definition)) (k : String) : Bool :=
  defs.any (fun d => d.1 == k)

/-- `HashMap::insert` on the association-list model: overwrite the binding
in place when the key is present, otherwise append. -/
def insertDef (defs : List (String × Definition)) (k : String) (v : Definition) :
    List (String × Definition) :=
  if containsKey defs k then
    defs.map (fun d => if d.1 == k then (k, v) else d)
  else
    defs ++ [(k, v)]

/-- `HashMap::remove` on the association-list model (no-op when absent). -/
def removeDef (defs : List (String × Definition)) (k : String) :
    List (String × Definition) :=
  defs.filter (fun d => d.1 != k)

/-- The substitution loop of `run` for a non-directive line: for every
definition in iteration order, when its payload is `Some(v)` the line is
rewritten by `line.replace(key, v)`; payload-less definitions are
skipped. -/
def expandLine (defs : List (String × Definition)) (line : String) : String :=
  defs.foldl (fun l d =>
    match d.2 with
    | some v => rustReplace l d.1 v
    | none => l) line

/-- The `std::io::ErrorKind` values the preprocessor produces. -/
inductive ErrorKind
  | invalidData
  | unexpectedEof
  | ioError
deriving DecidableEq, Repr

/-- A `std::io::Error` as the preprocessor builds it: a kind plus a
message. -/
structure PError where
  kind : ErrorKind
  msg : String
deriving DecidableEq, Repr

/-- Result of running a fallible, possibly panicking computation. -/
inductive Outcome (α : Type)
  | ok (val : α)
  | err (e : PError)
  | panicked (msg : String)
deriving DecidableEq, Repr

/-- The `Preprocessor` struct of the source: source lines, accumulated
output, definition table, cursor. -/
structure Preprocessor where
  lines : List String
  out : String
  defs : List (String × Definition)
  index : Nat
deriving DecidableEq, Repr

/-- `Preprocessor::new`: split the input into lines, empty output, empty
definition table, cursor at 0. -/
def Preprocessor.new (input : String) : Preprocessor :=
  { lines := rustLines input, out := "", defs := [], index := 0 }

/-- `Preprocessor::define`: pre-populate the definition table. -/
def Preprocessor.define (p : Preprocessor) (key : String) (value : Definition) :
    Preprocessor :=
  { p with defs := insertDef p.defs key value }

/-- `Preprocessor::read_until_endif_or_else`, the skip scan, as a fueled
loop over `(index, height)`; `ok` carries the cursor after a successful
scan.  Faithful to the source, including its defects: a line that does not
start with `#` (and likewise a `#`-line whose first space-delimited word
is none of `#ifdef`/`#ifundef`/`#endif`/`#else`) hits a bare `continue`
that does not advance the cursor, and `height : u16` wraps on
`height -= 1` at `height = 0` (a debug build would panic right there). -/
def read_until_endif_or_else (lines : List String) :
    Nat → Nat → Nat → Option (Outcome Nat)
  | 0, _, _ => none
  | fuel + 1, index, height =>
    if hlt : index < lines.length then
      let l := lines.get ⟨index, hlt⟩
      if rustStartsWith l "#" = false then
        read_until_endif_or_else lines fuel index height
      else
        let directive :=
          match splitOnceSpace l with
          | some x => x.1
          | none => l
        if directive = "#ifdef" ∨ directive = "#ifundef" then
          read_until_endif_or_else lines fuel (index + 1) ((height + 1) % 65536)
        else if directive = "#endif" then
          let h2 := (height + 65535) % 65536
          if h2 = 0 then some (.ok (index + 1))
          else read_until_endif_or_else lines fuel (index + 1) h2
        else if directive = "#else" then
          if (height + 65535) % 65536 = 0 then some (.ok (index + 1))
          else read_until_endif_or_else lines fuel (index + 1) height
        else
          read_until_endif_or_else lines fuel index height
    else
      some (.err ⟨.unexpectedEof,
        "Expected preprocessor directive `#endif` or `#else`, got EOF."⟩)

/-- `Preprocessor::run` as a fueled loop, parameterized by the builtin
library registry `libs` and the filesystem `fsys`.  Each loop iteration
consumes one unit of fuel; the skip scan, a `#with` child session, and the
continuation of the loop run on the remaining fuel.  Mirrors the source
line by line, including the unconditional `self.index += 1` after the
directive `match` (so the `#ifdef`/`#ifundef`/`#else` arms advance the
cursor twice) and the `line.split_once(" ").unwrap()` of the `#with` file
branch (modelled as a panic when the line has no literal space). -/
def run (libs : List (String × String)) (fsys : String → Option String) :
    Nat → Preprocessor → Option (Outcome Preprocessor)
  | 0, _ => none
  | fuel + 1, st =>
    if hlt : st.index < st.lines.length then
      let line := st.lines.get ⟨st.index, hlt⟩
      if rustStartsWith line "#" = false then
        run libs fsys fuel
          { st with out := st.out ++ expandLine st.defs line, index := st.index + 1 }
      else
        match splitWhitespace line with
        | [] => some (.err ⟨.invalidData,
            "Failed to get first word of preprocessor directive " ++ line ++
            " at line " ++ toString st.index⟩)
        | first :: args =>
          if first = "#define" then
            match args with
            | [] => some (.err ⟨.invalidData,
                "Failed to get <IDENT> in preprocessor directive " ++ line ++
                " at line " ++ toString st.index ++ "."⟩)
            | ident :: rest =>
              run libs fsys fuel
                { st with defs := insertDef st.defs ident rest.head?,
                          index := st.index + 1 }
          else if first = "#undefine" then
            match args with
            | [] => some (.err ⟨.invalidData,
                "Error in preprocessor directive `#undefine <ident>` - failed to get identifier at line " ++
                toString st.index ++ "."⟩)
            | ident :: _ =>
              run libs fsys fuel
                { st with defs := removeDef st.defs ident, index := st.index + 1 }
          else if first = "#ifdef" then
            match args with
            | [] => some (.err ⟨.invalidData,
                "Invalid preprocessor directive " ++ line ++ " - expected IDENT, got EOL."⟩)
            | ident :: _ =>
              if containsKey st.defs ident then
                match read_until_endif_or_else st.lines fuel (st.index + 1) 0 with
                | some (.ok idx) => run libs fsys fuel { st with index := idx + 1 }
                | some (.err e) => some (.err e)
                | some (.panicked m) => some (.panicked m)
                | none => none
              else
                run libs fsys fuel { st with index := st.index + 2 }
          else if first = "#ifundef" then
            match args with
            | [] => some (.err ⟨.invalidData,
                "Invalid preprocessor directive " ++ line ++ " - expected IDENT, got EOL."⟩)
            | ident :: _ =>
              if containsKey st.defs ident then
                run libs fsys fuel { st with index := st.index + 2 }
              else
                match read_until_endif_or_else st.lines fuel (st.index + 1) 0 with
                | some (.ok idx) => run libs fsys fuel { st with index := idx + 1 }
                | some (.err e) => some (.err e)
                | some (.panicked m) => some (.panicked m)
                | none => none
          else if first = "#else" then
            match read_until_endif_or_else st.lines fuel st.index 0 with
            | some (.ok idx) => run libs fsys fuel { st with index := idx + 1 }
            | some (.err e) => some (.err e)
            | some (.panicked m) => some (.panicked m)
            | none => none
          else if first = "#endif" then
            some (.err ⟨.invalidData,
              "Unexpected #endif directive at line " ++ toString st.index ++ "."⟩)
          else if first = "#with" then
            match args with
            | [] => some (.err ⟨.invalidData,
                "Expected file path or library name after #with directive at line " ++
                toString st.index⟩)
            | w :: _ =>
              let res : Outcome String :=
                if rustStartsWith w "$" then
                  match (libs.find? (fun d => d.1 == w)).map (fun d => d.2) with
                  | some src => .ok src
                  | none => .err ⟨.invalidData,
                      "No stdlib module with identifier " ++ w ++ " at line " ++
                      toString st.index ++ "."⟩
                else
                  match splitOnceSpace line with
                  | none => .panicked "called `Option::unwrap()` on a `None` value"
                  | some p =>
                    match fsys p.2 with
                    | some src => .ok src
                    | none => .err ⟨.ioError, "failed to read file " ++ p.2⟩
              match res with
              | .err e => some (.err e)
              | .panicked m => some (.panicked m)
              | .ok src =>
                match run libs fsys fuel (Preprocessor.new src) with
                | some (.ok child) =>
                  run libs fsys fuel
                    { st with out := st.out ++ child.out, index := st.index + 1 }
                | some (.err e) => some (.err e)
                | some (.panicked m) => some (.panicked m)
                | none => none
          else
            some (.err ⟨.invalidData,
              "Invalid preprocessor directive " ++ first ++ " at line " ++
              toString st.index ++ "."⟩)
    else
      some (.ok st)

/-- A filesystem with no readable files, for concrete evaluations. -/
def emptyFs : String → Option String := fun _ => none

end Rhl

namespace Rhl

/-! General lemmas about the embedding, shared by the claim theorems. -/

/-- One loop iteration of `run` on a non-directive line: expand the line
against the definition table, append it to the output, advance the cursor
by one. -/
theorem run_plain_step (libs : List (String × String)) (fsys : String → Option String)
    (f : Nat) (st : Preprocessor) (hlt : st.index < st.lines.length)
    (hplain : rustStartsWith (st.lines.get ⟨st.index, hlt⟩) "#" = false) :
    run libs fsys (f + 1) st =
      run libs fsys f
        { st with out := st.out ++ expandLine st.defs (st.lines.get ⟨st.index, hlt⟩),
                  index := st.index + 1 } := by
  rw [run.eq_def]
  dsimp only
  rw [dif_pos hlt]
  rw [if_pos hplain]

/-- The skip scan never advances past a line that does not start with the
reserved marker: the source's `continue` skips the `self.index += 1`, so
the scan re-inspects the same line forever, and the fueled model returns
`none` for every fuel. -/
theorem read_until_stalls (lines : List String) (i : Nat) (h : i < lines.length)
    (hplain : rustStartsWith (lines.get ⟨i, h⟩) "#" = false) :
    ∀ f ht, read_until_endif_or_else lines f i ht = none := by
  intro f
  induction f with
  | zero => intro ht; rfl
  | succ f ih =>
    intro ht
    rw [read_until_endif_or_else.eq_def]
    dsimp only
    rw [dif_pos h]
    rw [if_pos hplain]
    exact ih ht

/-- A successful skip scan leaves the cursor at most at the number of
lines (its `ok` exits advance the cursor from a strictly in-bounds
position by one). -/
theorem read_until_le (lines : List String) :
    ∀ (f i ht i' : Nat), i ≤ lines.length →
      read_until_endif_or_else lines f i ht = some (.ok i') →
      i' ≤ lines.length := by
  intro f
  induction f with
  | zero =>
    intro i ht i' _ hrun
    simp [read_until_endif_or_else] at hrun
  | succ f ih =>
    intro i ht i' hi hrun
    rw [read_until_endif_or_else.eq_def] at hrun
    dsimp only at hrun
    by_cases hlt : i < lines.length
    · rw [dif_pos hlt] at hrun
      split at hrun
      · exact ih i ht i' hi hrun
      · split at hrun
        · exact ih (i + 1) _ i' (by omega) hrun
        · split at hrun
          · split at hrun
            · simp only [Option.some.injEq, Outcome.ok.injEq] at hrun
              omega
            · exact ih (i + 1) _ i' (by omega) hrun
          · split at hrun
            · split at hrun
              · simp only [Option.some.injEq, Outcome.ok.injEq] at hrun
                omega
              · exact ih (i + 1) _ i' (by omega) hrun
            · exact ih i ht i' hi hrun
    · rw [dif_neg hlt] at hrun
      simp at hrun

end Rhl

namespace Rhl

/-- When `run` terminates successfully, the cursor ends at the number of
source lines or one past it (the post-`match` `self.index += 1` can push
it one past the end after a skip whose closer is the last line), and the
lines are unchanged. -/
theorem run_ok_bounds (libs : List (String × String)) (fsys : String → Option String) :
    ∀ (f : Nat) (st st' : Preprocessor), st.index ≤ st.lines.length + 1 →
      run libs fsys f st = some (.ok st') →
      st'.lines = st.lines ∧ st.lines.length ≤ st'.index ∧
        st'.index ≤ st.lines.length + 1 := by
  intro f
  induction f with
  | zero =>
    intro st st' _ h
    simp [run] at h
  | succ f ih =>
    intro st st' hpre h
    rw [run.eq_def] at h
    dsimp only at h
    by_cases hlt : st.index < st.lines.length
    · rw [dif_pos hlt] at h
      split at h
      · simpa using ih _ _ (by simp; omega) h
      · split at h
        · simp at h
        · split at h
          · split at h
            · simp at h
            · simpa using ih _ _ (by simp; omega) h
          · split at h
            · split at h
              · simp at h
              · simpa using ih _ _ (by simp; omega) h
            · split at h
              · split at h
                · simp at h
                · split at h
                  · split at h
                    · rename_i idx heq
                      have hle : idx ≤ st.lines.length :=
                        read_until_le st.lines f (st.index + 1) 0 idx (by omega) heq
                      simpa using ih _ _ (by simp; omega) h
                    · simp at h
                    · simp at h
                    · simp at h
                  · simpa using ih _ _ (by simp; omega) h
              · split at h
                · split at h
                  · simp at h
                  · split at h
                    · simpa using ih _ _ (by simp; omega) h
                    · split at h
                      · rename_i idx heq
                        have hle : idx ≤ st.lines.length :=
                          read_until_le st.lines f (st.index + 1) 0 idx (by omega) heq
                        simpa using ih _ _ (by simp; omega) h
                      · simp at h
                      · simp at h
                      · simp at h
                · split at h
                  · split at h
                    · rename_i idx heq
                      have hle : idx ≤ st.lines.length :=
                        read_until_le st.lines f st.index 0 idx (by omega) heq
                      simpa using ih _ _ (by simp; omega) h
                    · simp at h
                    · simp at h
                    · simp at h
                  · split at h
                    · simp at h
                    · split at h
                      · split at h
                        · simp at h
                        · split at h
                          · simp at h
                          · simp at h
                          · split at h
                            · simpa using ih _ _ (by simp; omega) h
                            · simp at h
                            · simp at h
                            · simp at h
                      · simp at h
    · rw [dif_neg hlt] at h
      simp only [Option.some.injEq, Outcome.ok.injEq] at h
      subst h
      refine ⟨rfl, by omega, by omega⟩

/-- When the cursor has reached (or passed) the end of the lines, `run`
returns successfully at once with the state unchanged. -/
theorem run_done (libs : List (String × String)) (fsys : String → Option String)
    (f : Nat) (st : Preprocessor) (h : st.lines.length ≤ st.index) :
    run libs fsys (f + 1) st = some (.ok st) := by
  rw [run.eq_def]
  dsimp only
  rw [dif_neg (by omega)]

end Rhl

namespace Rhl

/-- A list is a Boolean prefix of itself followed by anything. -/
theorem isPrefixOf_append_self (l t : List Char) : l.isPrefixOf (l ++ t) = true := by
  induction l with
  | nil => simp [List.isPrefixOf]
  | cons a l ih => simp [List.isPrefixOf, ih]

/-- `replaceCore` at an occurrence of the pattern: the occurrence is
replaced and scanning resumes after it. -/
theorem replaceCore_match (p : Char) (ps rep s : List Char) :
    replaceCore p ps rep ((p :: ps) ++ s) = rep ++ replaceCore p ps rep s := by
  have h1 : (p :: ps).isPrefixOf (p :: (ps ++ s)) = true := by
    simp [List.isPrefixOf, isPrefixOf_append_self]
  rw [replaceCore.eq_def]
  simp only [List.cons_append, h1, if_true, List.drop_left]

/-- `replaceCore` passes unchanged over characters that cannot start an
occurrence (none of them equals the pattern's first character). -/
theorem replaceCore_skip (p : Char) (ps rep : List Char) (a : List Char)
    (ha : ∀ x ∈ a, x ≠ p) (s : List Char) :
    replaceCore p ps rep (a ++ s) = a ++ replaceCore p ps rep s := by
  induction a with
  | nil => rfl
  | cons c a ih =>
    rw [List.cons_append, replaceCore.eq_def]
    have hpc : (p == c) = false :=
      beq_eq_false_iff_ne.mpr (Ne.symm (ha c (List.mem_cons_self c a)))
    simp only [List.isPrefixOf, hpc, Bool.false_and, Bool.false_eq_true, if_false]
    rw [ih (fun x hx => ha x (List.mem_cons_of_mem c hx))]
    rw [List.cons_append]

/-- `replaceCore` leaves a string with no possible occurrence start
unchanged. -/
theorem replaceCore_nomatch (p : Char) (ps rep : List Char) (s : List Char)
    (hs : ∀ x ∈ s, x ≠ p) : replaceCore p ps rep s = s := by
  have h0 : replaceCore p ps rep [] = [] := by rw [replaceCore.eq_def]
  have h2 := replaceCore_skip p ps rep s hs []
  rw [List.append_nil, h0, List.append_nil] at h2
  exact h2

/-- Expansion against a table whose definitions all lack payloads leaves
the line unchanged. -/
theorem expandLine_none (defs : List (String × Definition)) (line : String)
    (h : ∀ d ∈ defs, d.2 = none) : expandLine defs line = line := by
  induction defs generalizing line with
  | nil => rfl
  | cons d defs ih =>
    have hd : d.2 = none := h d (List.mem_cons_self d defs)
    simp only [expandLine, List.foldl_cons, hd]
    exact ih line (fun d hd => h d (List.mem_cons_of_mem _ hd))

/-- Expansion against a single definition with payload is one
`str::replace`. -/
theorem expandLine_single (k v line : String) :
    expandLine [(k, some v)] line = rustReplace line k v := rfl

/-- `split_once(" ")` finds nothing when no character is a space. -/
theorem splitOnceAux_none (l : List Char) (h : ∀ c ∈ l, c ≠ ' ') :
    ∀ acc, splitOnceAux acc l = none := by
  induction l with
  | nil => intro acc; rfl
  | cons c rest ih =>
    intro acc
    rw [splitOnceAux.eq_def]
    dsimp only
    rw [if_neg (h c (List.mem_cons_self c rest))]
    exact ih (fun x hx => h x (List.mem_cons_of_mem c hx)) (acc ++ [c])

/-- A line with no literal space character makes `split_once(" ")` return
`none` (whatever other whitespace it contains). -/
theorem splitOnceSpace_none (s : String) (h : ' ' ∉ s.data) :
    splitOnceSpace s = none :=
  splitOnceAux_none s.data (fun _ hc he => h (he ▸ hc)) []

/-- Running with an empty definition table over lines with no reserved
marker emits every remaining line verbatim and stops with the cursor at
the end. -/
theorem run_no_dirs (libs : List (String × String)) (fsys : String → Option String) :
    ∀ (f : Nat) (ls : List String) (i : Nat) (outAcc : String),
      i ≤ ls.length → ls.length - i < f →
      (∀ l ∈ ls.drop i, rustStartsWith l "#" = false) →
      run libs fsys f ⟨ls, outAcc, [], i⟩ =
        some (.ok ⟨ls, outAcc ++ concatLines (ls.drop i), [], ls.length⟩) := by
  intro f
  induction f with
  | zero =>
    intro ls i outAcc hi hf _
    omega
  | succ f ih =>
    intro ls i outAcc hi hf hplain
    by_cases hlt : i < ls.length
    · have hdrop : ls.drop i = ls.get ⟨i, hlt⟩ :: ls.drop (i + 1) :=
        List.drop_eq_getElem_cons hlt
      have hline : rustStartsWith (ls.get ⟨i, hlt⟩) "#" = false :=
        hplain _ (by rw [hdrop]; exact List.mem_cons_self _ _)
      rw [run_plain_step libs fsys f ⟨ls, outAcc, [], i⟩ hlt hline]
      have hrec := ih ls (i + 1) (outAcc ++ ls.get ⟨i, hlt⟩) (by omega) (by omega)
        (fun l hl => hplain l (by rw [hdrop]; exact List.mem_cons_of_mem _ hl))
      rw [show expandLine [] (ls.get ⟨i, hlt⟩) = ls.get ⟨i, hlt⟩ from rfl] at *
      rw [hrec, hdrop]
      rw [show concatLines (ls.get ⟨i, hlt⟩ :: ls.drop (i + 1)) =
        ls.get ⟨i, hlt⟩ ++ concatLines (ls.drop (i + 1)) from rfl]
      rw [String.append_assoc]
    · have hieq : i = ls.length := by omega
      rw [run_done libs fsys f _ (by simp; omega)]
      rw [show ls.drop i = [] from by rw [hieq]; exact List.drop_length ls]
      rw [show concatLines [] = "" from rfl, String.append_empty, hieq]

end Rhl

namespace Rhl

/-- One loop iteration of `run` on a `#define <ident> ...` line: record the
definition (payload = second word, when present) and advance by one. -/
theorem run_define_step (libs : List (String × String)) (fsys : String → Option String)
    (f : Nat) (st : Preprocessor) (ident : String) (rest : List String)
    (hlt : st.index < st.lines.length)
    (hhash : rustStartsWith (st.lines.get ⟨st.index, hlt⟩) "#" = true)
    (hsplit : splitWhitespace (st.lines.get ⟨st.index, hlt⟩) = "#define" :: ident :: rest) :
    run libs fsys (f + 1) st =
      run libs fsys f
        { st with defs := insertDef st.defs ident rest.head?, index := st.index + 1 } := by
  rw [run.eq_def]
  dsimp only
  rw [dif_pos hlt, hhash]
  simp only [Bool.true_eq_false, if_false]
  rw [hsplit]
  simp only [String.reduceEq, reduceIte]

/-- One loop iteration of `run` on an `#ifdef <ident>` line whose
identifier is defined: the cursor moves past the directive and the skip
scan runs; on a successful scan the loop resumes one line past where the
scan stopped. -/
theorem run_ifdef_defined_step (libs : List (String × String)) (fsys : String → Option String)
    (f : Nat) (st : Preprocessor) (ident : String) (rest : List String)
    (hlt : st.index < st.lines.length)
    (hhash : rustStartsWith (st.lines.get ⟨st.index, hlt⟩) "#" = true)
    (hsplit : splitWhitespace (st.lines.get ⟨st.index, hlt⟩) = "#ifdef" :: ident :: rest)
    (hdef : containsKey st.defs ident = true) :
    run libs fsys (f + 1) st =
      match read_until_endif_or_else st.lines f (st.index + 1) 0 with
      | some (.ok idx) => run libs fsys f { st with index := idx + 1 }
      | some (.err e) => some (.err e)
      | some (.panicked m) => some (.panicked m)
      | none => none := by
  rw [run.eq_def]
  dsimp only
  rw [dif_pos hlt, hhash]
  simp only [Bool.true_eq_false, if_false]
  rw [hsplit]
  simp only [String.reduceEq, reduceIte]
  rw [hdef]
  simp only [if_true]

/-- One scan iteration of the Conditional Block Resolver on an `#endif`
line when the wrapped decrement of the height is non-zero: the cursor
advances and scanning continues with the decremented (here: wrapped)
height. -/
theorem read_until_endif_nonzero_step (lines : List String) (f i ht : Nat)
    (hlt : i < lines.length)
    (hhash : rustStartsWith (lines.get ⟨i, hlt⟩) "#" = true)
    (hdir : (match splitOnceSpace (lines.get ⟨i, hlt⟩) with
             | some x => x.1
             | none => lines.get ⟨i, hlt⟩) = "#endif")
    (hne : ¬ (ht + 65535) % 65536 = 0) :
    read_until_endif_or_else lines (f + 1) i ht =
      read_until_endif_or_else lines f (i + 1) ((ht + 65535) % 65536) := by
  rw [read_until_endif_or_else.eq_def]
  dsimp only
  rw [dif_pos hlt, hhash]
  simp only [Bool.true_eq_false, if_false]
  rw [hdir]
  simp only [String.reduceEq, false_or, reduceIte]
  rw [if_neg hne]

end Rhl

namespace Rhl

/-- C1.  The claim's second half fails on the code: with `X` undefined,
`#ifdef X` does not simply advance past the directive line — the `#ifdef`
arm's own `self.index += 1` is followed by the unconditional
`self.index += 1` after the `match`, so the cursor moves two lines and the
first line of the kept block ("a") is silently dropped; only "b" is
emitted instead of "ab". -/
theorem c1_kept_block_first_line_dropped :
    run [] emptyFs 5 { lines := ["#ifdef X", "a", "b"], out := "", defs := [], index := 0 } =
      some (.ok { lines := ["#ifdef X", "a", "b"], out := "b", defs := [], index := 3 }) ∧
    ("b" : String) ≠ "ab" := by
  exact ⟨by decide, by decide⟩

/-- C2.  The claim fails on the code: inside a skip scan triggered by
`#ifdef X` (with `X` defined), the line "y" does not start with `#`, the
scan's `continue` skips the `self.index += 1`, and the cursor never
advances again — `run` diverges (the fueled model returns `none` for
every fuel) instead of terminating. -/
theorem c2_skip_scan_stalls_on_plain_line :
    ∀ f : Nat,
      run [] emptyFs f
        { lines := ["#define X", "#ifdef X", "y", "#endif"], out := "", defs := [], index := 0 } =
        none := by
  intro f
  rcases f with _ | _ | n
  · rfl
  · rfl
  · rw [run_define_step [] emptyFs (n + 1)
      { lines := ["#define X", "#ifdef X", "y", "#endif"], out := "", defs := [], index := 0 }
      "X" [] (by decide) (by decide) (by decide)]
    show run [] emptyFs (n + 1)
      { lines := ["#define X", "#ifdef X", "y", "#endif"], out := "",
        defs := [("X", none)], index := 1 } = none
    rw [run_ifdef_defined_step [] emptyFs n
      { lines := ["#define X", "#ifdef X", "y", "#endif"], out := "",
        defs := [("X", none)], index := 1 }
      "X" [] (by decide) (by decide) (by decide) (by decide)]
    rw [show (1 : Nat) + 1 = 2 from rfl]
    rw [read_until_stalls ["#define X", "#ifdef X", "y", "#endif"] 2 (by decide) (by decide) n 0]

/-- C3.  The claim fails on the code: the skip scan triggered by
`#ifdef X` (with `X` defined) reaches the matching `#endif` with the
`u16` height at 0 and executes `height -= 1`, which underflows — a debug
build panics with an arithmetic overflow right there, and a release build
wraps the counter to 65535 (the wrapping model used here), so `height <= 0`
is false, the closer is NOT treated as terminal, and the scan runs off the
end of the input into the unexpected-EOF error instead of returning
successfully past the closer. -/
theorem c3_endif_at_depth_zero_underflows :
    run [] emptyFs 8
      { lines := ["#define X", "#ifdef X", "#endif"], out := "", defs := [], index := 0 } =
      some (.err ⟨.unexpectedEof,
        "Expected preprocessor directive `#endif` or `#else`, got EOF."⟩) := by
  decide

/-- C4.  The claim fails on the code: for a skipped block closed by a
single `#endif` and followed by "after", the wrapped `u16` decrement at
the closer leaves the height at 65535, the scan overshoots the closer,
and then stalls forever on the non-directive line "after" — the interior
is never closed and the line after the closer is never emitted (a debug
build panics already at the decrement). -/
theorem c4_line_after_closer_never_emitted :
    ∀ f : Nat,
      run [] emptyFs f
        { lines := ["#define Y", "#ifdef Y", "#endif", "after"], out := "", defs := [], index := 0 } =
        none := by
  have hscan : ∀ n : Nat,
      read_until_endif_or_else ["#define Y", "#ifdef Y", "#endif", "after"] n 2 0 = none := by
    intro n
    rcases n with _ | m
    · rfl
    · rw [read_until_endif_nonzero_step ["#define Y", "#ifdef Y", "#endif", "after"]
        m 2 0 (by decide) (by decide) (by decide) (by decide)]
      rw [show (2 : Nat) + 1 = 3 from rfl, show ((0 : Nat) + 65535) % 65536 = 65535 from rfl]
      exact read_until_stalls ["#define Y", "#ifdef Y", "#endif", "after"] 3
        (by decide) (by decide) m 65535
  intro f
  rcases f with _ | _ | n
  · rfl
  · rfl
  · rw [run_define_step [] emptyFs (n + 1)
      { lines := ["#define Y", "#ifdef Y", "#endif", "after"], out := "", defs := [], index := 0 }
      "Y" [] (by decide) (by decide) (by decide)]
    show run [] emptyFs (n + 1)
      { lines := ["#define Y", "#ifdef Y", "#endif", "after"], out := "",
        defs := [("Y", none)], index := 1 } = none
    rw [run_ifdef_defined_step [] emptyFs n
      { lines := ["#define Y", "#ifdef Y", "#endif", "after"], out := "",
        defs := [("Y", none)], index := 1 }
      "Y" [] (by decide) (by decide) (by decide) (by decide)]
    rw [show (1 : Nat) + 1 = 2 from rfl]
    rw [hscan n]

/-- C7.  The claim holds only partially on the code.  Second conjunct: an
unterminated `#ifdef W` (with `W` defined) whose skip scan immediately
reaches end-of-input does fail with the unterminated-conditional
(unexpected-EOF) error and no partial output.  First conjunct (the code
bug): when the unterminated block contains an ordinary line ("z"), the
scan stalls on it forever instead of reporting the error — `run` returns
`none` at every fuel. -/
theorem c7_unterminated_conditional :
    (∀ f : Nat,
      run [] emptyFs f
        { lines := ["#define X", "#ifdef X", "z"], out := "", defs := [], index := 0 } = none) ∧
    run [] emptyFs 4
      { lines := ["#define W", "#ifdef W"], out := "", defs := [], index := 0 } =
      some (.err ⟨.unexpectedEof,
        "Expected preprocessor directive `#endif` or `#else`, got EOF."⟩) := by
  constructor
  · intro f
    rcases f with _ | _ | n
    · rfl
    · rfl
    · rw [run_define_step [] emptyFs (n + 1)
        { lines := ["#define X", "#ifdef X", "z"], out := "", defs := [], index := 0 }
        "X" [] (by decide) (by decide) (by decide)]
      show run [] emptyFs (n + 1)
        { lines := ["#define X", "#ifdef X", "z"], out := "",
          defs := [("X", none)], index := 1 } = none
      rw [run_ifdef_defined_step [] emptyFs n
        { lines := ["#define X", "#ifdef X", "z"], out := "",
          defs := [("X", none)], index := 1 }
        "X" [] (by decide) (by decide) (by decide) (by decide)]
      rw [show (1 : Nat) + 1 = 2 from rfl]
      rw [read_until_stalls ["#define X", "#ifdef X", "z"] 2 (by decide) (by decide) n 0]
  · decide

end Rhl

namespace Rhl

/-- C5 (amended).  On input whose lines never start with the reserved
marker and with an empty initial Definition Table, `run` succeeds and its
output is the concatenation of the input's lines — i.e. the input with its
line terminators removed (not merely normalized). -/
theorem c5_no_directives_output_is_concat (libs : List (String × String))
    (fsys : String → Option String) (s : String)
    (h : ∀ l ∈ rustLines s, rustStartsWith l "#" = false) :
    run libs fsys ((rustLines s).length + 1) (Preprocessor.new s) =
      some (.ok { lines := rustLines s, out := concatLines (rustLines s), defs := [],
                  index := (rustLines s).length }) := by
  have hrun := run_no_dirs libs fsys ((rustLines s).length + 1) (rustLines s) 0 ""
    (by omega) (by omega) (by simpa using h)
  simpa [Preprocessor.new, String.empty_append] using hrun

/-- Witness for C5: a concrete two-line directive-free input. -/
theorem c5_witness :
    (∀ l ∈ rustLines "x\ny", rustStartsWith l "#" = false) ∧
    run [] emptyFs ((rustLines "x\ny").length + 1) (Preprocessor.new "x\ny") =
      some (.ok { lines := rustLines "x\ny", out := concatLines (rustLines "x\ny"),
                  defs := [], index := (rustLines "x\ny").length }) :=
  ⟨by decide, c5_no_directives_output_is_concat [] emptyFs "x\ny" (by decide)⟩

/-- Counterexample for C5 as stated: the directive-free input "a\nb" is
already in normalized line-ending form, yet the output "ab" differs from
it — the newline is deleted, not normalized. -/
theorem c5_counterexample :
    run [] emptyFs 3 (Preprocessor.new "a\nb") =
      some (.ok { lines := ["a", "b"], out := "ab", defs := [], index := 2 }) ∧
    ("ab" : String) ≠ "a\nb" :=
  ⟨by decide, by decide⟩

/-- C6 (amended).  Whenever `run` terminates successfully the cursor ends
at the number of source lines or at most one past it (never further), with
the lines unchanged; and as soon as the cursor has reached the number of
source lines the session terminates successfully at once. -/
theorem c6_cursor_bounds :
    (∀ (libs : List (String × String)) (fsys : String → Option String)
        (f : Nat) (st st' : Preprocessor),
        st.index ≤ st.lines.length + 1 →
        run libs fsys f st = some (.ok st') →
        st'.lines = st.lines ∧ st.lines.length ≤ st'.index ∧
          st'.index ≤ st.lines.length + 1) ∧
    (∀ (libs : List (String × String)) (fsys : String → Option String)
        (f : Nat) (st : Preprocessor), st.lines.length ≤ st.index →
        run libs fsys (f + 1) st = some (.ok st)) :=
  ⟨run_ok_bounds, run_done⟩

/-- Witness for C6 (amended) on a one-line session. -/
theorem c6_witness :
    (({ lines := ["a"], out := "", defs := [], index := 0 } : Preprocessor).index ≤
      (["a"] : List String).length + 1) ∧
    (({ lines := ["a"], out := "a", defs := [], index := 1 } : Preprocessor).lines = ["a"] ∧
      (["a"] : List String).length ≤ 1 ∧ 1 ≤ (["a"] : List String).length + 1) :=
  ⟨by decide, by
    have h := c6_cursor_bounds.1 [] emptyFs 3
      { lines := ["a"], out := "", defs := [], index := 0 }
      { lines := ["a"], out := "a", defs := [], index := 1 } (by decide) (by decide)
    exact h⟩

/-- Counterexample for C6 as stated: after a skip whose accidental closer
is the last line, the post-`match` increment leaves the cursor at 5 on a
4-line session, strictly beyond `len(SourceLines)`, and the session still
terminates successfully. -/
theorem c6_counterexample :
    run [] emptyFs 10
      { lines := ["#define X", "#ifdef X", "#ifdef Y", "#endif"], out := "",
        defs := [], index := 0 } =
      some (.ok { lines := ["#define X", "#ifdef X", "#ifdef Y", "#endif"], out := "",
                  defs := [("X", none)], index := 5 }) ∧
    (["#define X", "#ifdef X", "#ifdef Y", "#endif"] : List String).length < 5 :=
  ⟨by decide, by decide⟩

/-- C8.  A `#with` inclusion — whether resolved through the builtin
library registry (first conjunct) or through the filesystem (second
conjunct) — processes the resolved text in a fresh child session whose
definition table starts empty; the parent's definitions are invisible to
the child, the child's entire output is appended to the parent's output at
the call site, and the parent continues with its own definition table
unchanged. -/
theorem c8_with_fresh_child_session :
    (∀ (libs : List (String × String)) (fsys : String → Option String)
        (f : Nat) (st : Preprocessor) (w src : String) (ws : List String)
        (hlt : st.index < st.lines.length),
        rustStartsWith (st.lines.get ⟨st.index, hlt⟩) "#" = true →
        splitWhitespace (st.lines.get ⟨st.index, hlt⟩) = "#with" :: w :: ws →
        rustStartsWith w "$" = true →
        (libs.find? (fun d => d.1 == w)).map (fun d => d.2) = some src →
        run libs fsys (f + 1) st =
          match run libs fsys f { lines := rustLines src, out := "", defs := [], index := 0 } with
          | some (.ok child) =>
            run libs fsys f { st with out := st.out ++ child.out, index := st.index + 1 }
          | some (.err e) => some (.err e)
          | some (.panicked m) => some (.panicked m)
          | none => none) ∧
    (∀ (libs : List (String × String)) (fsys : String → Option String)
        (f : Nat) (st : Preprocessor) (w src : String) (ws : List String)
        (p : String × String) (hlt : st.index < st.lines.length),
        rustStartsWith (st.lines.get ⟨st.index, hlt⟩) "#" = true →
        splitWhitespace (st.lines.get ⟨st.index, hlt⟩) = "#with" :: w :: ws →
        rustStartsWith w "$" = false →
        splitOnceSpace (st.lines.get ⟨st.index, hlt⟩) = some p →
        fsys p.2 = some src →
        run libs fsys (f + 1) st =
          match run libs fsys f { lines := rustLines src, out := "", defs := [], index := 0 } with
          | some (.ok child) =>
            run libs fsys f { st with out := st.out ++ child.out, index := st.index + 1 }
          | some (.err e) => some (.err e)
          | some (.panicked m) => some (.panicked m)
          | none => none) := by
  constructor
  · intro libs fsys f st w src ws hlt hhash hsplit hdollar hlib
    rw [run.eq_def]
    dsimp only
    rw [dif_pos hlt, hhash]
    simp only [Bool.true_eq_false, if_false]
    rw [hsplit]
    simp only [String.reduceEq, reduceIte]
    rw [hdollar]
    simp only [if_true, ite_true]
    rw [hlib]
    rfl
  · intro libs fsys f st w src ws p hlt hhash hsplit hdollar hsplitonce hfs
    rw [run.eq_def]
    dsimp only
    rw [dif_pos hlt, hhash]
    simp only [Bool.true_eq_false, if_false]
    rw [hsplit]
    simp only [String.reduceEq, reduceIte]
    rw [hdollar]
    simp only [Bool.false_eq_true, if_false]
    rw [hsplitonce]
    dsimp only
    rw [hfs]
    rfl

/-- Witness for C8: the parent defines `X` with payload "1" and includes
the registered library "$std" whose text is the single line "X"; the
child session's table is empty, so "X" is emitted verbatim (not replaced
by "1"), and the parent's table survives unchanged. -/
theorem c8_witness :
    run [("$std", "X")] emptyFs 3
      { lines := ["#with $std"], out := "", defs := [("X", some "1")], index := 0 } =
      some (.ok { lines := ["#with $std"], out := "X", defs := [("X", some "1")],
                  index := 1 }) := by
  have h := c8_with_fresh_child_session.1 [("$std", "X")] emptyFs 2
    { lines := ["#with $std"], out := "", defs := [("X", some "1")], index := 0 }
    "$std" "X" [] (by decide) (by decide) (by decide) (by decide) (by decide)
  rw [h]
  decide

/-- C10.  In the `#with` file-path branch (argument not starting with
`$`), a directive line whose `#with` and path are separated only by
non-space whitespace (so the line has no literal space) reaches
`line.split_once(" ").unwrap()` on `None` and panics instead of returning
an error. -/
theorem c10_with_no_space_panics (libs : List (String × String))
    (fsys : String → Option String) (f : Nat) (st : Preprocessor)
    (w : String) (ws : List String) (hlt : st.index < st.lines.length)
    (hhash : rustStartsWith (st.lines.get ⟨st.index, hlt⟩) "#" = true)
    (hsplit : splitWhitespace (st.lines.get ⟨st.index, hlt⟩) = "#with" :: w :: ws)
    (hdollar : rustStartsWith w "$" = false)
    (hnospace : ' ' ∉ (st.lines.get ⟨st.index, hlt⟩).data) :
    run libs fsys (f + 1) st =
      some (.panicked "called `Option::unwrap()` on a `None` value") := by
  have hso : splitOnceSpace (st.lines.get ⟨st.index, hlt⟩) = none :=
    splitOnceSpace_none _ hnospace
  rw [run.eq_def]
  dsimp only
  rw [dif_pos hlt, hhash]
  simp only [Bool.true_eq_false, if_false]
  rw [hsplit]
  simp only [String.reduceEq, reduceIte]
  rw [hdollar]
  simp only [Bool.false_eq_true, if_false]
  rw [hso]

/-- Witness for C10: `#with` and the path separated by a tab. -/
theorem c10_witness :
    (splitWhitespace "#with\tlib.rhl" = ["#with", "lib.rhl"] ∧
      rustStartsWith "lib.rhl" "$" = false ∧ ' ' ∉ ("#with\tlib.rhl").data) ∧
    run [] emptyFs 5 { lines := ["#with\tlib.rhl"], out := "", defs := [], index := 0 } =
      some (.panicked "called `Option::unwrap()` on a `None` value") :=
  ⟨⟨by decide, by decide, by decide⟩,
   c10_with_no_space_panics [] emptyFs 4
     { lines := ["#with\tlib.rhl"], out := "", defs := [], index := 0 }
     "lib.rhl" [] (by decide) (by decide) (by decide) (by decide) (by decide)⟩

end Rhl

namespace Rhl

/-- C9.  Expansion of a non-directive line.  First conjunct: definitions
whose payload is `None` cause no replacement at all — a table of
payload-less definitions emits the line unchanged.  Second conjunct: a
definition with payload `Some(v)` has every literal occurrence of its
identifier in the line replaced by `v` — stated for a line decomposed as
`a ++ k ++ b ++ k ++ c` where the identifier `k` occurs exactly at the two
marked places (no segment contains the identifier's first character, so no
other or overlapping occurrence exists); the emitted line is
`a ++ v ++ b ++ v ++ c`. -/
theorem c9_expansion :
    (∀ (libs : List (String × String)) (fsys : String → Option String)
        (f : Nat) (st : Preprocessor) (hlt : st.index < st.lines.length),
        rustStartsWith (st.lines.get ⟨st.index, hlt⟩) "#" = false →
        (∀ d ∈ st.defs, d.2 = none) →
        run libs fsys (f + 1) st =
          run libs fsys f
            { st with out := st.out ++ st.lines.get ⟨st.index, hlt⟩,
                      index := st.index + 1 }) ∧
    (∀ (libs : List (String × String)) (fsys : String → Option String)
        (f : Nat) (st : Preprocessor) (k v : String) (p : Char)
        (ps a b c : List Char) (hlt : st.index < st.lines.length),
        rustStartsWith (st.lines.get ⟨st.index, hlt⟩) "#" = false →
        st.defs = [(k, some v)] →
        k.data = p :: ps →
        (st.lines.get ⟨st.index, hlt⟩).data = a ++ (k.data ++ (b ++ (k.data ++ c))) →
        (∀ x ∈ a, x ≠ p) → (∀ x ∈ b, x ≠ p) → (∀ x ∈ c, x ≠ p) →
        run libs fsys (f + 1) st =
          run libs fsys f
            { st with out := st.out ++ String.mk (a ++ (v.data ++ (b ++ (v.data ++ c)))),
                      index := st.index + 1 }) := by
  constructor
  · intro libs fsys f st hlt hplain hnone
    rw [run_plain_step libs fsys f st hlt hplain]
    rw [expandLine_none st.defs _ hnone]
  · intro libs fsys f st k v p ps a b c hlt hplain hdefs hk hdata ha hb hc
    rw [run_plain_step libs fsys f st hlt hplain]
    have hexp : expandLine st.defs (st.lines.get ⟨st.index, hlt⟩) =
        String.mk (a ++ (v.data ++ (b ++ (v.data ++ c)))) := by
      rw [hdefs, expandLine_single]
      rw [hk] at hdata
      show rustReplace (st.lines.get ⟨st.index, hlt⟩) k v = _
      rw [rustReplace.eq_def, hk]
      dsimp only
      rw [hdata]
      rw [replaceCore_skip p ps v.data a ha _]
      rw [replaceCore_match p ps v.data]
      rw [replaceCore_skip p ps v.data b hb _]
      rw [replaceCore_match p ps v.data]
      rw [replaceCore_nomatch p ps v.data c hc]
    rw [hexp]

end Rhl

namespace Rhl

/-- Witness for C9: line "A B A" with the single definition `A ↦ "z"`;
both occurrences of `A` are replaced, emitting "z B z". -/
theorem c9_witness :
    (("A B A" : String).data =
        [] ++ (("A" : String).data ++ ([' ', 'B', ' '] ++ (("A" : String).data ++ []))) ∧
      ("A" : String).data = 'A' :: []) ∧
    run [] emptyFs 2 { lines := ["A B A"], out := "", defs := [("A", some "z")], index := 0 } =
      run [] emptyFs 1 { lines := ["A B A"], out := "z B z", defs := [("A", some "z")],
                         index := 1 } := by
  refine ⟨⟨by decide, by decide⟩, ?_⟩
  have h := c9_expansion.2 [] emptyFs 1
    { lines := ["A B A"], out := "", defs := [("A", some "z")], index := 0 }
    "A" "z" 'A' [] [] [' ', 'B', ' '] [] (by decide) (by decide) (by decide) (by decide)
    (by decide) (by decide) (by decide) (by decide)
  rw [h]
  decide

end Rhl
